import Mathlib

/- Verification of the conversion core of the Binary_V2 binary visualizer
   (src/binary_converter_tab.py).  The Python source is shallowly embedded:
   every definition below mirrors a function or event handler of the source
   file.  Machine arithmetic is modelled on Int/Nat; Python has arbitrary
   precision integers, and the only masking the source performs is
   `value & 0xFF`, which for Python integers (also negative ones) equals the
   nonnegative remainder `value % 256`, i.e. Lean's Euclidean `%` on Int.
   Fallible code (a Python IndexError, a ValueError from `int(...)`) is
   modelled with Option. -/

/-! ### Model of Python `int(text)`
    Every `int(...)` call of the source parses user-typed text.  Python
    `int` strips ASCII whitespace, then accepts an optional single sign
    followed by a nonempty run of decimal digits in which an underscore may
    appear between two digits. -/

/-- The ASCII whitespace characters stripped by Python `int` (space, tab,
    newline, carriage return, vertical tab, form feed), identified by code
    point. -/
def pySpace (c : Char) : Bool :=
  c.toNat = 32 || c.toNat = 9 || c.toNat = 10 || c.toNat = 13 ||
  c.toNat = 11 || c.toNat = 12

/-- Decimal digit test, as in Python `int` parsing: code points of
    the characters 0 through 9. -/
def isPyDigit (c : Char) : Bool := 48 ≤ c.toNat && c.toNat ≤ 57

/-- Numeric value of a decimal digit character. -/
def digitVal (c : Char) : Nat := c.toNat - '0'.toNat

/-- Digit-run scanner: accumulates the decimal value; the Boolean records
    whether the previous character was a digit (Python allows one
    underscore only between two digits, and requires at least one digit). -/
def parseDigitsGo : List Char → Nat → Bool → Option Nat
  | [], acc, lastDigit => if lastDigit then some acc else none
  | c :: cs, acc, lastDigit =>
    if isPyDigit c then parseDigitsGo cs (acc * 10 + digitVal c) true
    else if c = '_' && lastDigit then parseDigitsGo cs acc false
    else none

/-- Parse a nonempty decimal digit run (after sign removal). -/
def parseDigits (cs : List Char) : Option Nat := parseDigitsGo cs 0 false

/-- Strip leading and trailing whitespace. -/
def stripEnds (l : List Char) : List Char :=
  ((l.dropWhile pySpace).reverse.dropWhile pySpace).reverse

/-- Model of Python `int(text)`: `some v` on success, `none` when Python
    would raise ValueError.  After stripping whitespace, a leading `-` or
    `+` sign is removed and the remaining digit run is parsed. -/
def pyIntParse (s : String) : Option Int :=
  if stripEnds s.data = [] then none
  else if (stripEnds s.data).headD ' ' = '-' then
    (parseDigits ((stripEnds s.data).drop 1)).map (fun n => -(n : Int))
  else if (stripEnds s.data).headD ' ' = '+' then
    (parseDigits ((stripEnds s.data).drop 1)).map (fun n => (n : Int))
  else
    (parseDigits (stripEnds s.data)).map (fun n => (n : Int))

/-! ### Model of Python numeral rendering
    The source renders numbers with `str(value)`, `bin(value)[2:]`,
    f-strings `08b` / `o` / `x`.  All of these emit most-significant digit
    first with no leading zeros (and `08b` then left-pads with zeros).
    `natToStrAux` carries fuel to make the division recursion structural;
    fuel `n + 1` always suffices for a base at least 2. -/

/-- Digits of `n` in base `b` over alphabet `alpha`, most significant
    first.  Structural in the fuel argument. -/
def natToStrAux (alpha : List Char) (b : Nat) : Nat → Nat → List Char
  | 0, _ => []
  | fuel + 1, n =>
    if n < b then [alpha.getD n ' ']
    else natToStrAux alpha b fuel (n / b) ++ [alpha.getD (n % b) ' ']

/-- Render `n` in base `b` over alphabet `alpha` (no leading zeros;
    `0` renders as the single digit for zero). -/
def natToStr (alpha : List Char) (b n : Nat) : String :=
  String.mk (natToStrAux alpha b (n + 1) n)

/-- Decimal digit alphabet. -/
def decAlphabet : List Char := "0123456789".data

/-- Binary digit alphabet. -/
def binAlphabet : List Char := "01".data

/-- Octal digit alphabet. -/
def octAlphabet : List Char := "01234567".data

/-- Lowercase hexadecimal alphabet, as produced by an `x` f-string. -/
def hexAlphabet : List Char := "0123456789abcdef".data

/-- Model of Python `str(n)` for a natural number. -/
def pyStrNat (n : Nat) : String := natToStr decAlphabet 10 n

/-- Model of Python `str(v)` for an integer. -/
def pyStr (v : Int) : String :=
  if v < 0 then String.mk ('-' :: (pyStrNat v.natAbs).data) else pyStrNat v.natAbs

/-- Model of Python `bin(n)[2:]` (minimal-width binary numeral). -/
def pyBinStr (n : Nat) : String := natToStr binAlphabet 2 n

/-- Model of the `o` f-string (minimal-width octal numeral). -/
def pyOctStr (n : Nat) : String := natToStr octAlphabet 8 n

/-- Model of the `x` f-string (minimal-width lowercase hex numeral). -/
def pyHexStr (n : Nat) : String := natToStr hexAlphabet 16 n

/-- Left-pad with zeros to width 8, as the `08b` f-string does. -/
def pad8 (s : String) : String :=
  String.mk (List.replicate (8 - s.data.length) '0' ++ s.data)

/-! ### Bit-pattern codec (source lines 649-704) -/

/-- Core of `update_bits_from_decimal` (lines 649-658): the 8 bit values
    of `f-string value & 255 : 08b`, most significant bit first (the bit
    box at index `i` holds power `7 - i`). -/
def decimalToBits (value : Int) : List Nat :=
  (List.range 8).map (fun i => ((value % 256).toNat / 2 ^ (7 - i)) % 2)

/-- One loop step of `update_decimal_from_bits`: add `2 ^ power` when the
    bit value is 1. -/
def activeBitStep (acc : Int) (q : Nat × Nat) : Int :=
  if q.1 = 1 then acc + 2 ^ q.2 else acc

/-- Numeric core of `update_decimal_from_bits` (lines 681-695): when the
    most significant bit is 1, start from -128 and add the powers of the
    active bits among the boxes of powers 6 down to 0; otherwise sum the
    powers of all active boxes (powers 7 down to 0). -/
def bitsToDecimal (bits : List Nat) : Int :=
  if bits.headD 0 = 1 then
    ((bits.drop 1).zip [6,5,4,3,2,1,0]).foldl activeBitStep (-128)
  else
    (bits.zip [7,6,5,4,3,2,1,0]).foldl activeBitStep 0

/-! ### Widget state and event handlers -/

/-- The state the claims are about: the 8 bit-box values (most significant
    first), the decimal input field's text, whether the field is styled as
    valid (green) or invalid (red), whether the invert-sign button is
    enabled, and whether manual bit-edit mode is on. -/
structure TabState where
  bits : List Nat
  decimalText : String
  styleValid : Bool
  invertEnabled : Bool
  manualMode : Bool
deriving DecidableEq

/-- `on_decimal_changed` (lines 613-647), run when the input field's text
    has become `text`: empty text resets the pattern to 0 and shows as
    valid; a parsed value in [-128, 255] updates the pattern and enables
    invert unless the value is -128; out-of-range or unparsable text only
    flips the style to invalid and disables invert. -/
def on_decimal_changed (text : String) (s : TabState) : TabState :=
  if text = "" then
    { s with decimalText := text, styleValid := true, invertEnabled := true,
             bits := decimalToBits 0 }
  else
    match pyIntParse text with
    | some value =>
      if -128 ≤ value ∧ value ≤ 255 then
        { s with decimalText := text, styleValid := true,
                 bits := decimalToBits value,
                 invertEnabled := if value = -128 then false else true }
      else
        { s with decimalText := text, styleValid := false, invertEnabled := false }
    | none =>
      { s with decimalText := text, styleValid := false, invertEnabled := false }

/-- `update_decimal_from_bits` (lines 676-704): in manual mode, derive the
    decimal value from the bits and write it into the input field with
    signals blocked (so `on_decimal_changed` does not run). -/
def update_decimal_from_bits (s : TabState) : TabState :=
  if s.manualMode then { s with decimalText := pyStr (bitsToDecimal s.bits) } else s

/-- `on_bit_clicked` (lines 660-674) together with `BitBox.toggle`
    (lines 139-142): in manual mode, flip the value of the box whose power
    is `power` (index `7 - power`), then re-derive the decimal value. -/
def on_bit_clicked (power : Nat) (s : TabState) : TabState :=
  if s.manualMode then
    update_decimal_from_bits
      (if power ≤ 7 then
        { s with bits := s.bits.set (7 - power) (1 - s.bits.getD (7 - power) 0) }
      else s)
  else s

/-- `invert_sign` (lines 714-722): parse the field's text; on success write
    the negated value back with `setText`, which fires `textChanged` (and
    hence `on_decimal_changed`) exactly when the text actually changes;
    on ValueError do nothing. -/
def invert_sign (s : TabState) : TabState :=
  match pyIntParse s.decimalText with
  | some value =>
    if pyStr (-value) = s.decimalText then s
    else on_decimal_changed (pyStr (-value)) s
  | none => s

/-- A click on the invert button runs `invert_sign` only while the button
    is enabled. -/
def invertClick (s : TabState) : TabState :=
  if s.invertEnabled then invert_sign s else s

/-- `toggle_manual_mode` (lines 706-712): the checkbox only flips the
    manual-mode flag (and the field's read-only styling); it touches
    neither the bits nor the invert button. -/
def toggle_manual_mode (b : Bool) (s : TabState) : TabState :=
  { s with manualMode := b }

/-! ### Base converter (lines 738-751) -/

/-- The digit table of `convert_to_base`, exactly as in the source: only
    sixteen symbols. -/
def digitsTable : List Char := "0123456789ABCDEF".data

/-- The while loop of `convert_to_base`: prepend `digits table at
    num mod base` and divide, until `num` is 0.  A table lookup out of
    range is Python's IndexError, modelled as `none`.  Structural fuel;
    `num + 1` steps always suffice for a base at least 2. -/
def convertLoop : Nat → Nat → Nat → List Char → Option (List Char)
  | 0, _, _, _ => none
  | fuel + 1, num, base, result =>
    if num = 0 then some result
    else
      match digitsTable.get? (num % base) with
      | none => none
      | some c => convertLoop fuel (num / base) base (c :: result)

/-- `convert_to_base` (lines 738-751): `some` of the rendered numeral, or
    `none` when the source raises IndexError. -/
def convert_to_base (num base : Nat) : Option String :=
  if num = 0 then some "0"
  else (convertLoop (num + 1) num base []).map String.mk

/-! ### Display cards (`update_all_outputs`, lines 724-736) -/

/-- `value & 0xFF`, the unsigned pattern value used by all cards. -/
def maskByte (value : Int) : Nat := (value % 256).toNat

/-- Binary card text: the `08b` f-string of the masked value. -/
def binary_card_value (value : Int) : String := pad8 (pyBinStr (maskByte value))

/-- Octal card text: the `o` f-string of the masked value. -/
def octal_card_value (value : Int) : String := pyOctStr (maskByte value)

/-- Hex card text: the `x` f-string of the masked value. -/
def hex_card_value (value : Int) : String := pyHexStr (maskByte value)

/-- Base-N card text for the selected base. -/
def custom_base_card_value (value : Int) (base : Nat) : Option String :=
  convert_to_base (maskByte value) base

/-! ### Division-method explanation (`show_division_method`, lines 766-809) -/

/-- The while loop of `show_division_method`: one row
    `(dividend, dividend / 2, dividend mod 2)` per iteration until the
    dividend reaches 0. -/
def divisionLoop (n : Nat) : List (Nat × Nat × Nat) :=
  if h : n = 0 then [] else (n, n / 2, n % 2) :: divisionLoop (n / 2)
termination_by n
decreasing_by exact Nat.div_lt_self (Nat.pos_of_ne_zero h) (by omega)

/-- The rows of the division-method table for a nonnegative value: the
    source emits one extra `(0, 0, 0)` row exactly when the value is 0,
    then runs the loop. -/
def divisionRows (v : Nat) : List (Nat × Nat × Nat) :=
  (if v = 0 then [(0, 0, 0)] else []) ++ divisionLoop v

/-- Value of a binary numeral string (most significant digit first). -/
def binStrVal (s : String) : Nat :=
  s.data.foldl (fun a c => 2 * a + (c.toNat - 48)) 0

/-! ### Powers-of-two explanation (`show_powers_method`, lines 811-854) -/

/-- One step of the powers loop: select power `i` when the remaining value
    is at least `2 ^ i`. -/
def powersStep (acc : List Nat × Nat) (i : Nat) : List Nat × Nat :=
  if 2 ^ i ≤ acc.2 then (acc.1 ++ [i], acc.2 - 2 ^ i) else acc

/-- The powers selected by `show_powers_method` for a nonnegative value:
    the loop scans powers 7 down to 0 greedily; for value 0 the source
    short-circuits and selects nothing. -/
def show_powers_parts (v : Nat) : List Nat :=
  if v = 0 then [] else ([7,6,5,4,3,2,1,0].foldl powersStep ([], v)).1

/-! ### Quiz (`check_quiz_answer`, lines 911-931) -/

/-- Quiz score state: correct count, total count, and the outstanding
    question's answer. -/
structure QuizState where
  quiz_score : Nat
  quiz_total : Nat
  quiz_answer : Int
deriving DecidableEq

/-- `check_quiz_answer` (lines 911-931): parse the submission; on
    ValueError change nothing; otherwise count the attempt and the point
    exactly when the parsed answer equals the stored one. -/
def check_quiz_answer (text : String) (s : QuizState) : QuizState :=
  match pyIntParse text with
  | some user_answer =>
    { s with quiz_total := s.quiz_total + 1,
             quiz_score := if user_answer = s.quiz_answer then s.quiz_score + 1
                           else s.quiz_score }
  | none => s


/-! ### Lemmas: decimal rendering parses back (`int(str(v)) == v`) -/

/-- Each decimal alphabet entry is a digit with the matching value. -/
theorem decAlphabet_digit : ∀ m : Nat, m < 10 →
    isPyDigit (decAlphabet.getD m ' ') = true ∧ digitVal (decAlphabet.getD m ' ') = m := by
  decide

/-- A digit character is not a sign character and not whitespace. -/
theorem digit_not_sign (c : Char) (h : isPyDigit c = true) :
    c ≠ '-' ∧ c ≠ '+' ∧ pySpace c = false := by
  have hn : 48 ≤ c.toNat ∧ c.toNat ≤ 57 := by
    simpa [isPyDigit] using h
  refine ⟨?_, ?_, ?_⟩
  · rintro rfl; simp at hn
  · rintro rfl; simp at hn
  · simp only [pySpace, Bool.or_eq_false_iff, decide_eq_false_iff_not]
    omega

/-- The digit-run scanner accepts a nonempty all-digit run and returns its
    decimal value accumulated left to right. -/
theorem parseDigitsGo_digits : ∀ ds : List Char, (∀ c ∈ ds, isPyDigit c = true) → ds ≠ [] →
    ∀ (acc : Nat) (b : Bool),
      parseDigitsGo ds acc b = some (ds.foldl (fun a c => a * 10 + digitVal c) acc) := by
  intro ds
  induction ds with
  | nil => intro _ h; exact absurd rfl h
  | cons c cs ih =>
    intro hdig _ acc b
    have hc : isPyDigit c = true := hdig c (by simp)
    by_cases hcs : cs = []
    · subst hcs; simp [parseDigitsGo, hc]
    · simp only [parseDigitsGo, hc, if_true, List.foldl_cons]
      exact ih (fun x hx => hdig x (by simp [hx])) hcs _ true

/-- `dropWhile` is the identity on a list with no matching element. -/
theorem dropWhile_eq_self_of (p : Char → Bool) (l : List Char)
    (h : ∀ c ∈ l, p c = false) : l.dropWhile p = l := by
  cases l with
  | nil => rfl
  | cons c cs => simp [List.dropWhile_cons, h c (by simp)]

/-- Stripping whitespace is the identity on a whitespace-free list. -/
theorem stripEnds_eq_self (l : List Char) (h : ∀ c ∈ l, pySpace c = false) :
    stripEnds l = l := by
  unfold stripEnds
  rw [dropWhile_eq_self_of pySpace l h,
      dropWhile_eq_self_of pySpace l.reverse (by intro c hc; exact h c (by simpa using hc)),
      List.reverse_reverse]

/-- The decimal rendering of `n` is a nonempty all-digit run whose
    accumulated value is `n`. -/
theorem natToStrAux_dec_spec : ∀ fuel n : Nat, n < fuel →
    (∀ c ∈ natToStrAux decAlphabet 10 fuel n, isPyDigit c = true) ∧
    natToStrAux decAlphabet 10 fuel n ≠ [] ∧
    (natToStrAux decAlphabet 10 fuel n).foldl (fun a c => a * 10 + digitVal c) 0 = n := by
  intro fuel
  induction fuel with
  | zero => intro n hn; omega
  | succ fuel ih =>
    intro n hn
    by_cases h10 : n < 10
    · have hone : natToStrAux decAlphabet 10 (fuel + 1) n = [decAlphabet.getD n ' '] := by
        rw [natToStrAux, if_pos h10]
      refine ⟨?_, ?_, ?_⟩
      · intro c hc
        rw [hone, List.mem_singleton] at hc
        subst hc; exact (decAlphabet_digit n h10).1
      · rw [hone]; simp
      · rw [hone, List.foldl_cons, List.foldl_nil, (decAlphabet_digit n h10).2]
        omega
    · have hsplit : natToStrAux decAlphabet 10 (fuel + 1) n
          = natToStrAux decAlphabet 10 fuel (n / 10) ++ [decAlphabet.getD (n % 10) ' '] := by
        rw [natToStrAux, if_neg h10]
      have hdiv : n / 10 < fuel := by
        have h1 : n / 10 < n := Nat.div_lt_self (by omega) (by omega)
        omega
      have hrec := ih (n / 10) hdiv
      have hm : n % 10 < 10 := Nat.mod_lt _ (by omega)
      refine ⟨?_, ?_, ?_⟩
      · intro c hc
        rw [hsplit, List.mem_append, List.mem_singleton] at hc
        rcases hc with hc | hc
        · exact hrec.1 c hc
        · subst hc; exact (decAlphabet_digit _ hm).1
      · rw [hsplit]; simp
      · rw [hsplit, List.foldl_append, hrec.2.2, List.foldl_cons, List.foldl_nil,
            (decAlphabet_digit _ hm).2]
        omega

/-- `int(str(n)) == n` for a natural number. -/
theorem pyIntParse_pyStrNat (n : Nat) : pyIntParse (pyStrNat n) = some (n : Int) := by
  have hspec := natToStrAux_dec_spec (n + 1) n (Nat.lt_succ_self n)
  have hdata : (pyStrNat n).data = natToStrAux decAlphabet 10 (n + 1) n := rfl
  have hstrip : stripEnds (pyStrNat n).data = natToStrAux decAlphabet 10 (n + 1) n := by
    rw [hdata]
    apply stripEnds_eq_self
    intro c hc
    exact (digit_not_sign c (hspec.1 c hc)).2.2
  have hhead : isPyDigit ((natToStrAux decAlphabet 10 (n + 1) n).headD ' ') = true := by
    cases hl : natToStrAux decAlphabet 10 (n + 1) n with
    | nil => exact absurd hl hspec.2.1
    | cons c cs => exact hspec.1 c (by rw [hl]; simp)
  have hns := digit_not_sign _ hhead
  rw [pyIntParse, hstrip, if_neg hspec.2.1, if_neg hns.1, if_neg hns.2.1]
  rw [parseDigits, parseDigitsGo_digits _ hspec.1 hspec.2.1 0 false, hspec.2.2]
  simp

/-- `int(str(v)) == v` for any integer: the text written back by
    `invert_sign` or a manual bit edit parses to the value it rendered. -/
theorem pyIntParse_pyStr (v : Int) : pyIntParse (pyStr v) = some v := by
  by_cases hv : v < 0
  · have hspec := natToStrAux_dec_spec (v.natAbs + 1) v.natAbs (Nat.lt_succ_self _)
    have hdata : (pyStr v).data = '-' :: natToStrAux decAlphabet 10 (v.natAbs + 1) v.natAbs := by
      simp [pyStr, hv, pyStrNat, natToStr]
    have hstrip : stripEnds (pyStr v).data
        = '-' :: natToStrAux decAlphabet 10 (v.natAbs + 1) v.natAbs := by
      rw [hdata]
      apply stripEnds_eq_self
      intro c hc
      rcases List.mem_cons.mp hc with hc | hc
      · subst hc; decide
      · exact (digit_not_sign c (hspec.1 c hc)).2.2
    rw [pyIntParse, hstrip, if_neg (by simp), if_pos (by rw [List.headD_cons]),
        List.drop_one, List.tail_cons, parseDigits,
        parseDigitsGo_digits _ hspec.1 hspec.2.1 0 false, hspec.2.2]
    exact congrArg some (by omega : -((v.natAbs : Int)) = v)
  · have hstr : pyStr v = pyStrNat v.natAbs := by simp [pyStr, hv]
    rw [hstr, pyIntParse_pyStrNat]
    congr 1
    omega

set_option maxRecDepth 100000

/-! ### The signed bit-pattern round trip (claims C1, C3) -/

/-- Bounded form of the signed round trip, checked by evaluation over the
    256 patterns. -/
theorem signed_roundtrip_bounded : ∀ k : Nat, k < 256 →
    bitsToDecimal (decimalToBits ((k : Int) - 128)) = (k : Int) - 128 := by
  decide

/-- The codec round trip holds exactly on [-128, 127]: writing `v` into the
    bit boxes and reading them back with the MSB-keyed interpretation
    returns `v`. -/
theorem signed_roundtrip (v : Int) (h1 : -128 ≤ v) (h2 : v ≤ 127) :
    bitsToDecimal (decimalToBits v) = v := by
  have hk : ((v + 128).toNat : Int) = v + 128 := Int.toNat_of_nonneg (by omega)
  have hlt : (v + 128).toNat < 256 := by omega
  have h := signed_roundtrip_bounded (v + 128).toNat hlt
  rw [hk] at h
  have hv : v + 128 - 128 = v := by ring
  rwa [hv] at h

/-- Claim C1, counterexample: at v = 200 (in the accepted range
    [-128, 255]) the round trip returns -56, not 200, because the MSB of
    the pattern 11001000 forces the two's-complement reading. -/
theorem c1_roundtrip_fails_at_200 :
    bitsToDecimal (decimalToBits 200) = -56 ∧ bitsToDecimal (decimalToBits 200) ≠ 200 := by
  decide

/-- Claim C1, amended: for every integer v in [-128, 127], converting v to
    its 8-bit pattern and reading the pattern back with the MSB-keyed
    signed/unsigned interpretation returns v itself. -/
theorem c1_roundtrip_amended (v : Int) (h1 : -128 ≤ v) (h2 : v ≤ 127) :
    bitsToDecimal (decimalToBits v) = v :=
  signed_roundtrip v h1 h2

/-- Witness for the amended C1 at v = -56. -/
theorem c1_roundtrip_amended_witness :
    (-128 ≤ (-56 : Int) ∧ (-56 : Int) ≤ 127) ∧ bitsToDecimal (decimalToBits (-56)) = -56 :=
  ⟨by decide, c1_roundtrip_amended (-56) (by decide) (by decide)⟩

/-! ### Base converter (claim C2) -/

/-- Claim C2, code bug: the digit table of `convert_to_base` holds only 16
    symbols, so converting 16 in base 17 looks up index 16 and raises
    IndexError (modelled as `none`) instead of producing the numeral "G". -/
theorem c2_convert_to_base_crash :
    convert_to_base 16 17 = none ∧ digitsTable.length = 16 ∧
    digitsTable.get? (16 % 17) = none := by
  decide

/-! ### Powers-of-two explanation (claim C6) -/

/-- Bounded form of the powers-of-two sum property, checked by evaluation. -/
theorem powers_sum_bounded : ∀ v : Nat, v < 256 →
    ((show_powers_parts v).map (fun i => 2 ^ i)).sum = v := by
  decide

/-- Claim C6: for every nonnegative v in [0, 255], the powers selected by
    the greedy scan from power 7 down to 0, summed as powers of two, equal
    v. -/
theorem c6_powers_sum (v : Nat) (hv : v ≤ 255) :
    ((show_powers_parts v).map (fun i => 2 ^ i)).sum = v :=
  powers_sum_bounded v (by omega)

/-- Witness for C6 at v = 200 (selected powers 7, 6, 3). -/
theorem c6_powers_sum_witness :
    200 ≤ 255 ∧ ((show_powers_parts 200).map (fun i => 2 ^ i)).sum = 200 :=
  ⟨by decide, c6_powers_sum 200 (by decide)⟩

/-! ### Display cards at input 200 (claim C7) -/

/-- Claim C7: for input 200 the bit pattern is 11001000, the binary card
    shows "11001000", the octal card "310", the hex card "c8" (lowercase)
    and the Base-N card with base 16 shows "C8" (uppercase). -/
theorem c7_outputs_for_200 :
    decimalToBits 200 = [1, 1, 0, 0, 1, 0, 0, 0] ∧
    binary_card_value 200 = "11001000" ∧ octal_card_value 200 = "310" ∧
    hex_card_value 200 = "c8" ∧ custom_base_card_value 200 16 = some "C8" := by
  decide

/-! ### Quiz scoring (claim C9) -/

/-- Claim C9: an unparsable quiz submission changes neither the correct
    count nor the total count; a parsed submission u increments the total
    by exactly one and the correct count by one exactly when u equals the
    stored answer. -/
theorem c9_check_quiz_answer (text : String) (s : QuizState) :
    (pyIntParse text = none →
      (check_quiz_answer text s).quiz_score = s.quiz_score ∧
      (check_quiz_answer text s).quiz_total = s.quiz_total) ∧
    (∀ u : Int, pyIntParse text = some u →
      (check_quiz_answer text s).quiz_total = s.quiz_total + 1 ∧
      ((check_quiz_answer text s).quiz_score = s.quiz_score + 1 ↔ u = s.quiz_answer)) := by
  constructor
  · intro hp; simp [check_quiz_answer, hp]
  · intro u hp
    by_cases hu : u = s.quiz_answer
    · simp [check_quiz_answer, hp, hu]
    · simp [check_quiz_answer, hp, hu]

/-- Witness for C9: submitting "77" against stored answer 77 from score
    (0, 0) counts the attempt and the point. -/
theorem c9_check_quiz_answer_witness :
    pyIntParse "77" = some 77 ∧
    ((check_quiz_answer "77" ⟨0, 0, 77⟩).quiz_total = 0 + 1 ∧
      ((check_quiz_answer "77" ⟨0, 0, 77⟩).quiz_score = 0 + 1 ↔ (77 : Int) = 77)) :=
  ⟨by decide, (c9_check_quiz_answer "77" ⟨0, 0, 77⟩).2 77 (by decide)⟩

/-! ### Input validation keeps the bit state (claims C4, C8, C10) -/

/-- Claim C4, counterexample: the empty text is not a valid integer
    (Python `int("")` raises ValueError), yet `on_decimal_changed` treats
    it as the value 0 and rewrites the bit state, here away from the
    pattern of the last valid value 5. -/
theorem c4_empty_text_resets :
    pyIntParse "" = none ∧
    (on_decimal_changed "" ⟨decimalToBits 5, "5", true, true, false⟩).bits ≠
      (⟨decimalToBits 5, "5", true, true, false⟩ : TabState).bits := by
  decide

/-- Claim C4, amended: for every NON-EMPTY input text that fails to parse
    as an integer, and for every input parsing to a value outside
    [-128, 255], processing the input leaves the bit state unchanged. -/
theorem c4_errors_keep_bits (t : String) (s : TabState) (hne : t ≠ "") :
    (pyIntParse t = none → (on_decimal_changed t s).bits = s.bits) ∧
    (∀ v : Int, pyIntParse t = some v → (v < -128 ∨ 255 < v) →
      (on_decimal_changed t s).bits = s.bits) := by
  constructor
  · intro hp; simp [on_decimal_changed, hne, hp]
  · intro v hp hout
    have hrange : ¬(-128 ≤ v ∧ v ≤ 255) := by omega
    simp [on_decimal_changed, hne, hp, hrange]

/-- Witness for the amended C4: input "300" (range error) keeps the bit
    pattern of the last valid value 5. -/
theorem c4_errors_keep_bits_witness :
    ("300" : String) ≠ "" ∧ pyIntParse "300" = some 300 ∧
    ((300 : Int) < -128 ∨ 255 < (300 : Int)) ∧
    (on_decimal_changed "300" ⟨decimalToBits 5, "5", true, true, false⟩).bits =
      (⟨decimalToBits 5, "5", true, true, false⟩ : TabState).bits :=
  ⟨by decide, by decide, by decide,
    (c4_errors_keep_bits "300" ⟨decimalToBits 5, "5", true, true, false⟩
      (by decide)).2 300 (by decide) (by decide)⟩

/-- Claim C8: when the input parses to -128, the handler disables the
    invert button, and a click on the disabled button changes nothing, so
    the out-of-range value +128 is never produced. -/
theorem c8_invert_disabled_at_minus128 (t : String) (s : TabState)
    (h : pyIntParse t = some (-128)) :
    (on_decimal_changed t s).invertEnabled = false ∧
    invertClick (on_decimal_changed t s) = on_decimal_changed t s := by
  have hne : t ≠ "" := by
    intro h0
    rw [h0] at h
    exact absurd h (by decide)
  have h1 : (on_decimal_changed t s).invertEnabled = false := by
    simp [on_decimal_changed, hne, h]
  exact ⟨h1, by simp [invertClick, h1]⟩

/-- Witness for C8 at input "-128". -/
theorem c8_invert_disabled_witness :
    pyIntParse "-128" = some (-128) ∧
    ((on_decimal_changed "-128" ⟨decimalToBits 0, "0", true, true, false⟩).invertEnabled = false ∧
      invertClick (on_decimal_changed "-128" ⟨decimalToBits 0, "0", true, true, false⟩) =
        on_decimal_changed "-128" ⟨decimalToBits 0, "0", true, true, false⟩) :=
  ⟨by decide,
    c8_invert_disabled_at_minus128 "-128" ⟨decimalToBits 0, "0", true, true, false⟩ (by decide)⟩

/-- Claim C10: for a displayed value v in [129, 255] the invert button is
    still enabled; clicking it writes -v into the input, whose handler
    signals a range error (red style, invert disabled) while the bit
    state keeps showing the pattern of v — and among in-range values,
    -128 is the only one for which invert is disabled. -/
theorem c10_invert_range_error (v : Int) (s : TabState)
    (h1 : 129 ≤ v) (h2 : v ≤ 255)
    (ht : pyIntParse s.decimalText = some v) (he : s.invertEnabled = true)
    (hb : s.bits = decimalToBits v) :
    (invertClick s).decimalText = pyStr (-v) ∧
    (invertClick s).styleValid = false ∧
    (invertClick s).invertEnabled = false ∧
    (invertClick s).bits = decimalToBits v ∧
    (∀ (t : String) (w : Int), pyIntParse t = some w → -128 ≤ w → w ≤ 255 →
      ((on_decimal_changed t s).invertEnabled = false ↔ w = -128)) := by
  have hneq : pyStr (-v) ≠ s.decimalText := by
    intro heq
    have hr := pyIntParse_pyStr (-v)
    rw [heq, ht, Option.some.injEq] at hr
    omega
  have hne2 : pyStr (-v) ≠ "" := by
    have hda : (pyStr (-v)).data = '-' :: (pyStrNat (-v).natAbs).data := by
      simp [pyStr, show -v < 0 by omega]
    intro hc
    rw [hc] at hda
    simp at hda
  have hclick : invertClick s = on_decimal_changed (pyStr (-v)) s := by
    simp [invertClick, he, invert_sign, ht, hneq]
  have hout : ¬(-128 ≤ -v ∧ -v ≤ 255) := by omega
  have hres : on_decimal_changed (pyStr (-v)) s =
      { s with decimalText := pyStr (-v), styleValid := false, invertEnabled := false } := by
    simp [on_decimal_changed, hne2, pyIntParse_pyStr, hout]
    omega
  refine ⟨?_, ?_, ?_, ?_, ?_⟩
  · rw [hclick, hres]
  · rw [hclick, hres]
  · rw [hclick, hres]
  · rw [hclick, hres, ← hb]
  · intro t w hw hw1 hw2
    have hnet : t ≠ "" := by
      intro h0
      rw [h0] at hw
      have hnone : pyIntParse "" = none := by decide
      rw [hnone] at hw
      exact Option.noConfusion hw
    by_cases hwv : w = -128
    · subst hwv
      simp [on_decimal_changed, hnet, hw]
    · have hrange : -128 ≤ w ∧ w ≤ 255 := ⟨hw1, hw2⟩
      simp [on_decimal_changed, hnet, hw, hrange, hwv]

/-- Witness for C10 at v = 200: inverting writes "-200", which is flagged
    as a range error while the bits keep the pattern of 200. -/
theorem c10_invert_range_error_witness :
    (129 ≤ (200 : Int) ∧ (200 : Int) ≤ 255) ∧
    pyIntParse (TabState.decimalText ⟨decimalToBits 200, "200", true, true, false⟩) = some 200 ∧
    ((invertClick ⟨decimalToBits 200, "200", true, true, false⟩).decimalText = pyStr (-200) ∧
      (invertClick ⟨decimalToBits 200, "200", true, true, false⟩).styleValid = false ∧
      (invertClick ⟨decimalToBits 200, "200", true, true, false⟩).invertEnabled = false ∧
      (invertClick ⟨decimalToBits 200, "200", true, true, false⟩).bits = decimalToBits 200 ∧
      (∀ (t : String) (w : Int), pyIntParse t = some w → -128 ≤ w → w ≤ 255 →
        ((on_decimal_changed t ⟨decimalToBits 200, "200", true, true, false⟩).invertEnabled = false
          ↔ w = -128))) :=
  ⟨by decide, by decide,
    c10_invert_range_error 200 ⟨decimalToBits 200, "200", true, true, false⟩
      (by decide) (by decide) (by decide) (by decide) (by decide)⟩

/-! ### Manual bit toggling (claim C3) -/

/-- The bit pattern always has exactly 8 entries. -/
theorem decimalToBits_length (v : Int) : (decimalToBits v).length = 8 := by
  simp [decimalToBits]

/-- Every entry of a bit pattern is 0 or 1. -/
theorem decimalToBits_le_one (v : Int) : ∀ d ∈ decimalToBits v, d ≤ 1 := by
  intro d hd
  simp only [decimalToBits, List.mem_map, List.mem_range] at hd
  obtain ⟨i, _, hi⟩ := hd
  omega

/-- Flipping the same position of a 0/1 list twice restores the list. -/
theorem toggle_twice_list : ∀ (l : List Nat) (i : Nat), i < l.length → (∀ d ∈ l, d ≤ 1) →
    (l.set i (1 - l.getD i 0)).set i (1 - (l.set i (1 - l.getD i 0)).getD i 0) = l := by
  intro l
  induction l with
  | nil => intro i hi _; simp at hi
  | cons x xs ih =>
    intro i hi hb
    cases i with
    | zero =>
      have hx : x ≤ 1 := hb x (by simp)
      simp only [List.getD_cons_zero, List.set_cons_zero, List.cons.injEq]
      exact ⟨by omega, trivial⟩
    | succ j =>
      have hj : j < xs.length := by simpa using hi
      simp only [List.getD_cons_succ, List.set_cons_succ, List.cons.injEq]
      exact ⟨trivial, ih j hj (fun d hd => hb d (by simp [hd]))⟩

/-- In manual mode a bit click flips the addressed bit and writes the
    re-derived decimal value into the input field. -/
theorem on_bit_clicked_manual (p : Nat) (s : TabState) (hm : s.manualMode = true) (hp : p ≤ 7) :
    on_bit_clicked p s =
      { s with bits := s.bits.set (7 - p) (1 - s.bits.getD (7 - p) 0),
               decimalText :=
                 pyStr (bitsToDecimal (s.bits.set (7 - p) (1 - s.bits.getD (7 - p) 0))) } := by
  simp [on_bit_clicked, update_decimal_from_bits, hm, hp]

/-- Claim C3, counterexample: starting from the in-range value 200
    (pattern 11001000) in manual mode, toggling the bit at power 0 twice
    ends with the displayed decimal value -56, not 200: the re-derivation
    reads the MSB-set pattern as a negative number. -/
theorem c3_double_toggle_fails_at_200 :
    pyIntParse (on_bit_clicked 0 (on_bit_clicked 0
        ⟨decimalToBits 200, "200", true, true, true⟩)).decimalText = some (-56) ∧
    some (-56 : Int) ≠ some (200 : Int) := by
  decide

/-- Claim C3, amended: in manual mode, for every starting value v in
    [-128, 127] and every bit power p in [0, 7], toggling the bit at power
    p twice (each toggle re-deriving the decimal value) restores both the
    bit pattern and the displayed decimal value v. -/
theorem c3_double_toggle (v : Int) (p : Nat) (s : TabState)
    (h1 : -128 ≤ v) (h2 : v ≤ 127) (hp : p ≤ 7)
    (hm : s.manualMode = true) (hb : s.bits = decimalToBits v) :
    (on_bit_clicked p (on_bit_clicked p s)).bits = s.bits ∧
    pyIntParse (on_bit_clicked p (on_bit_clicked p s)).decimalText = some v := by
  have hlen : s.bits.length = 8 := by rw [hb]; exact decimalToBits_length v
  have hidx : 7 - p < s.bits.length := by omega
  have hle : ∀ d ∈ s.bits, d ≤ 1 := by rw [hb]; exact decimalToBits_le_one v
  have htog := toggle_twice_list s.bits (7 - p) hidx hle
  have hval : bitsToDecimal s.bits = v := by rw [hb]; exact signed_roundtrip v h1 h2
  rw [on_bit_clicked_manual p s hm hp]
  rw [on_bit_clicked_manual p _ (by simpa using hm) hp]
  refine ⟨?_, ?_⟩
  · simpa using htog
  · simp only [TabState.decimalText]
    rw [htog, hval, pyIntParse_pyStr]

/-- Witness for the amended C3 at v = 5, p = 2. -/
theorem c3_double_toggle_witness :
    ((-128 : Int) ≤ 5 ∧ (5 : Int) ≤ 127 ∧ 2 ≤ 7) ∧
    (on_bit_clicked 2 (on_bit_clicked 2 ⟨decimalToBits 5, "5", true, true, true⟩)).bits =
      (⟨decimalToBits 5, "5", true, true, true⟩ : TabState).bits ∧
    pyIntParse (on_bit_clicked 2 (on_bit_clicked 2
      ⟨decimalToBits 5, "5", true, true, true⟩)).decimalText = some 5 :=
  ⟨by decide,
    (c3_double_toggle 5 2 ⟨decimalToBits 5, "5", true, true, true⟩
      (by decide) (by decide) (by decide) rfl rfl).1,
    (c3_double_toggle 5 2 ⟨decimalToBits 5, "5", true, true, true⟩
      (by decide) (by decide) (by decide) rfl rfl).2⟩

/-! ### Division-method explanation (claim C5) -/

/-- The division loop records nothing for dividend 0. -/
theorem divisionLoop_zero : divisionLoop 0 = [] := by
  rw [divisionLoop.eq_def]
  rfl

/-- Every recorded row has the shape (dividend, dividend / 2, dividend mod 2). -/
theorem divisionLoop_rows_shape : ∀ n : Nat, ∀ row ∈ divisionLoop n,
    row.2.1 = row.1 / 2 ∧ row.2.2 = row.1 % 2 := by
  intro n
  induction n using Nat.strong_induction_on with
  | _ n ih =>
    intro row hrow
    rw [divisionLoop.eq_def] at hrow
    by_cases h0 : n = 0
    · rw [dif_pos h0] at hrow; simp at hrow
    · rw [dif_neg h0] at hrow
      rcases List.mem_cons.mp hrow with hr | hr
      · subst hr; exact ⟨rfl, rfl⟩
      · exact ih (n / 2) (Nat.div_lt_self (by omega) (by omega)) row hr

/-- The remainders of the division loop, read from last computed to first,
    are exactly the minimal-width binary digits of the dividend. -/
theorem divisionLoop_remainders : ∀ fuel n : Nat, 0 < n → n < fuel →
    ((divisionLoop n).map (fun row => Char.ofNat (48 + row.2.2))).reverse
      = natToStrAux binAlphabet 2 fuel n := by
  intro fuel
  induction fuel with
  | zero => intro n h0 hf; omega
  | succ fuel ih =>
    intro n h0 hf
    rw [divisionLoop.eq_def, dif_neg (by omega : ¬n = 0)]
    by_cases h2 : n < 2
    · have hn1 : n = 1 := by omega
      subst hn1
      rw [natToStrAux, if_pos (by omega)]
      rw [show (1 : Nat) / 2 = 0 from rfl, divisionLoop_zero]
      decide
    · rw [natToStrAux, if_neg h2]
      have hdiv2 : 0 < n / 2 := by omega
      have hdivf : n / 2 < fuel := by omega
      rw [List.map_cons, List.reverse_cons, ih (n / 2) hdiv2 hdivf]
      have hm : n % 2 = 0 ∨ n % 2 = 1 := by omega
      rcases hm with hm | hm <;> rw [hm] <;> rfl

/-- The binary numeral of `n` evaluates back to `n`. -/
theorem natToStrAux_bin_val : ∀ fuel n : Nat, n < fuel →
    (natToStrAux binAlphabet 2 fuel n).foldl (fun a c => 2 * a + (c.toNat - 48)) 0 = n := by
  intro fuel
  induction fuel with
  | zero => intro n hn; omega
  | succ fuel ih =>
    intro n hn
    by_cases h2 : n < 2
    · rw [natToStrAux, if_pos h2]
      have hm : n = 0 ∨ n = 1 := by omega
      rcases hm with hm | hm <;> subst hm <;> decide
    · rw [natToStrAux, if_neg h2, List.foldl_append, ih (n / 2) (by omega)]
      have hm : n % 2 = 0 ∨ n % 2 = 1 := by omega
      rcases hm with hm | hm <;> rw [hm, List.foldl_cons, List.foldl_nil]
      · have h48 : (binAlphabet.getD 0 ' ').toNat = 48 := by decide
        rw [h48]; omega
      · have h49 : (binAlphabet.getD 1 ' ').toNat = 49 := by decide
        rw [h49]; omega

/-- The binary numeral is never the empty string. -/
theorem natToStr_bin_ne_nil (n : Nat) : natToStrAux binAlphabet 2 (n + 1) n ≠ [] := by
  rw [natToStrAux]
  by_cases h2 : n < 2
  · rw [if_pos h2]; simp
  · rw [if_neg h2]; simp

/-- The binary numeral of a positive number has no leading zero: it starts
    with the digit 1. -/
theorem natToStrAux_bin_head : ∀ fuel n : Nat, 0 < n → n < fuel →
    (natToStrAux binAlphabet 2 fuel n).head? = some '1' := by
  intro fuel
  induction fuel with
  | zero => intro n h0 hf; omega
  | succ fuel ih =>
    intro n h0 hf
    by_cases h2 : n < 2
    · have hn1 : n = 1 := by omega
      subst hn1
      rw [natToStrAux, if_pos (by omega)]
      decide
    · rw [natToStrAux, if_neg h2]
      have hh := ih (n / 2) (by omega) (by omega)
      cases hl : natToStrAux binAlphabet 2 fuel (n / 2) with
      | nil => rw [hl] at hh; exact absurd hh (by simp)
      | cons c cs =>
        rw [hl] at hh
        simpa using hh

/-- Claim C5: for every nonnegative v in [0, 255] the division-method
    table records rows (dividend, dividend / 2, dividend mod 2) until the
    dividend reaches 0 (exactly the one row (0, 0, 0) when v = 0), and the
    remainders read from last computed to first form exactly the
    minimal-width binary string of v (the string evaluates back to v, is
    nonempty, and has no leading zero). -/
theorem c5_division_method (v : Nat) (hv : v ≤ 255) :
    (v = 0 → divisionRows v = [(0, 0, 0)]) ∧
    (∀ row ∈ divisionRows v, row.2.1 = row.1 / 2 ∧ row.2.2 = row.1 % 2) ∧
    String.mk (((divisionRows v).map (fun row => Char.ofNat (48 + row.2.2))).reverse)
      = pyBinStr v ∧
    binStrVal (pyBinStr v) = v ∧
    (pyBinStr v).data ≠ [] ∧
    (v ≠ 0 → (pyBinStr v).data.head? = some '1') := by
  by_cases h0 : v = 0
  · subst h0
    have hrows : divisionRows 0 = [(0, 0, 0)] := by
      simp [divisionRows, divisionLoop_zero]
    refine ⟨fun _ => hrows, ?_, ?_, by decide, by decide, fun h => absurd rfl h⟩
    · rw [hrows]
      intro row hrow
      simp only [List.mem_singleton] at hrow
      subst hrow
      exact ⟨rfl, rfl⟩
    · rw [hrows]; decide
  · have hpos : 0 < v := by omega
    have hrows : divisionRows v = divisionLoop v := by
      simp only [divisionRows, if_neg h0, List.nil_append]
    refine ⟨fun h => absurd h h0, ?_, ?_, ?_, ?_, fun _ => ?_⟩
    · rw [hrows]; exact divisionLoop_rows_shape v
    · rw [hrows]
      exact congrArg String.mk (divisionLoop_remainders (v + 1) v hpos (Nat.lt_succ_self v))
    · exact natToStrAux_bin_val (v + 1) v (Nat.lt_succ_self v)
    · exact natToStr_bin_ne_nil v
    · exact natToStrAux_bin_head (v + 1) v hpos (Nat.lt_succ_self v)

/-- Witness for C5 at v = 6 (rows 6, 3, 1; remainders bottom-to-top 110). -/
theorem c5_division_method_witness :
    6 ≤ 255 ∧
    ((6 = 0 → divisionRows 6 = [(0, 0, 0)]) ∧
      (∀ row ∈ divisionRows 6, row.2.1 = row.1 / 2 ∧ row.2.2 = row.1 % 2) ∧
      String.mk (((divisionRows 6).map (fun row => Char.ofNat (48 + row.2.2))).reverse)
        = pyBinStr 6 ∧
      binStrVal (pyBinStr 6) = 6 ∧
      (pyBinStr 6).data ≠ [] ∧
      (6 ≠ 0 → (pyBinStr 6).data.head? = some '1')) :=
  ⟨by decide, c5_division_method 6 (by decide)⟩

/-- Claim C8, counterexample: reaching -128 through a manual bit edit
    bypasses `on_decimal_changed` (the text is written with signals
    blocked), so the invert button keeps its stale enabled state; clicking
    it then really does invert -128 into +128, and the handler accepts
    "128" as valid (the accepted range is [-128, 255]) and renders its
    pattern.  Starting from value 0: enable manual mode, toggle the bit at
    power 7 (state shows "-128" with invert still enabled), click invert. -/
theorem c8_invert_manual_stale :
    (on_bit_clicked 7 (toggle_manual_mode true
        (on_decimal_changed "0" ⟨decimalToBits 0, "0", true, true, false⟩))).decimalText
      = "-128" ∧
    (on_bit_clicked 7 (toggle_manual_mode true
        (on_decimal_changed "0" ⟨decimalToBits 0, "0", true, true, false⟩))).invertEnabled
      = true ∧
    (invertClick (on_bit_clicked 7 (toggle_manual_mode true
        (on_decimal_changed "0" ⟨decimalToBits 0, "0", true, true, false⟩)))).decimalText
      = "128" ∧
    (invertClick (on_bit_clicked 7 (toggle_manual_mode true
        (on_decimal_changed "0" ⟨decimalToBits 0, "0", true, true, false⟩)))).styleValid
      = true ∧
    (invertClick (on_bit_clicked 7 (toggle_manual_mode true
        (on_decimal_changed "0" ⟨decimalToBits 0, "0", true, true, false⟩)))).bits
      = decimalToBits 128 := by
  decide
